import Mathlib

/-!
Verification of the code-size analysis tool (scripts/count-lines.py).

The Python tool walks a source tree, counts lines per file, classifies each
file into a category from its relative path, and folds the results into
per-category statistics.  This file gives a shallow embedding of that core
pipeline: the filesystem is a tree of entries, a file's readable content is
modelled by the number of lines a read yields (an unreadable file is none),
and the traversal, classification, sorting and aggregation functions are
transcribed from the source.  All definitions come first, followed by the
theorems about them.
-/

/-- Threshold above which a file is critical (count-lines.py line 25). -/
def CRITICAL_THRESHOLD : Nat := 500

/-- Threshold above which a file is a warning (count-lines.py line 26). -/
def WARNING_THRESHOLD : Nat := 400

/-- One scanned file, as in the FileInfo dataclass (count-lines.py lines 67-71):
relative path, line count and assigned category. -/
structure FileInfo where
  path : String
  lines : Nat
  category : String
deriving DecidableEq

/-- Derived health status of a file (count-lines.py lines 73-80): critical when
the line count exceeds CRITICAL_THRESHOLD, warning when it exceeds
WARNING_THRESHOLD, and good otherwise. -/
def FileInfo.status (f : FileInfo) : String :=
  if f.lines > CRITICAL_THRESHOLD then "critical"
  else if f.lines > WARNING_THRESHOLD then "warning"
  else "good"

/-- Boolean test that the first character list starts the second one. -/
def charsLeading : List Char → List Char → Bool
  | [], _ => true
  | _ :: _, [] => false
  | a :: as, b :: bs => a == b && charsLeading as bs

/-- Boolean substring test on character lists: the pattern occurs somewhere in
the text.  Together with strContains this models the Python operator `in` on
strings. -/
def charsContains (pat : List Char) : List Char → Bool
  | [] => charsLeading pat []
  | c :: rest => charsLeading pat (c :: rest) || charsContains pat rest

/-- Substring test on strings: strContains s pat is true when pat occurs in s,
modelling the Python expression `pat in s`. -/
def strContains (s pat : String) : Bool := charsContains pat.data s.data

/-- Suffix test on strings, modelling `str.endswith`. -/
def strEndsWith (s tail : String) : Bool := charsLeading tail.data.reverse s.data.reverse

/-- Separator normalization from categorize_file (count-lines.py line 116):
every backslash in the path is replaced by a forward slash. -/
def normalizeSep (s : String) : String :=
  String.mk (s.data.map fun c => if c = '\\' then '/' else c)

/-- Category assignment (count-lines.py lines 114-137): normalize separators,
then run an if/elif chain of substring tests and return the first matching
label, with "Other" as the fallback. -/
def categorize_file (rel_path : String) : String :=
  let parts := normalizeSep rel_path
  if strContains parts "/ipc/" then "IPC Handlers"
  else if strContains parts "/store/" || strContains parts "/stores/" then "Stores"
  else if strContains parts "/pages/" then "Pages"
  else if strContains parts "/main/services/" then "Main Services"
  else if strContains parts "/components/" || strContains parts "useSmartSearchWorkflow" then
    "Renderer Components"
  else if strContains parts "/preload/" then "Preload"
  else if strContains parts "/shared/" then "Shared"
  else if strContains parts "/renderer/" then "Renderer Other"
  else if strContains parts "/main/" then "Main Other"
  else "Other"

/-- Ordered rule list of the classifier: the (predicate, label) pairs of the
if/elif chain of categorize_file, transcribed in source order. -/
def categoryRules : List ((String → Bool) × String) :=
  [ (fun parts => strContains parts "/ipc/", "IPC Handlers"),
    (fun parts => strContains parts "/store/" || strContains parts "/stores/", "Stores"),
    (fun parts => strContains parts "/pages/", "Pages"),
    (fun parts => strContains parts "/main/services/", "Main Services"),
    (fun parts => strContains parts "/components/" || strContains parts "useSmartSearchWorkflow",
      "Renderer Components"),
    (fun parts => strContains parts "/preload/", "Preload"),
    (fun parts => strContains parts "/shared/", "Shared"),
    (fun parts => strContains parts "/renderer/", "Renderer Other"),
    (fun parts => strContains parts "/main/", "Main Other") ]

/-- Evaluation of an ordered rule list: the label of the first rule whose
predicate accepts the string, with "Other" as the fallback when none does. -/
def firstLabel : List ((String → Bool) × String) → String → String
  | [], _ => "Other"
  | r :: rest, s => if r.1 s then r.2 else firstLabel rest s

mutual
/-- Model of one filesystem entry: a file carries the number of lines a
successful read yields, or none when reading it fails (permission error,
vanished file, and so on); a directory carries its entries in listing order.
FSEntry and FSList are a mutual pair so that the walk below is structural. -/
inductive FSEntry where
  | file (name : String) (content : Option Nat)
  | dir (name : String) (children : FSList)
/-- Listing of filesystem entries, in directory order. -/
inductive FSList where
  | nil
  | cons (e : FSEntry) (rest : FSList)
end

/-- Conversion from an ordinary list of entries to an FSList. -/
def fsList : List FSEntry → FSList
  | [] => FSList.nil
  | e :: rest => FSList.cons e (fsList rest)

/-- Line counting (count-lines.py lines 140-146): a readable file yields its
line count, and a failed read is swallowed and counted as zero lines. -/
def count_lines (content : Option Nat) : Nat :=
  match content with
  | some n => n
  | none => 0

/-- Directory names pruned during the walk (count-lines.py line 156). -/
def excluded_dirs : List String := [ "node_modules", "dist", ".git" ]

/-- Substrings of a file name that disqualify it (count-lines.py line 152). -/
def exclude_patterns : List String := [ ".spec.", ".test.", "__tests__", "__mocks__" ]

/-- File eligibility from the loop body of scan_files (count-lines.py lines
158-161): the name must end in .ts or .tsx and must contain none of the
excluded substrings. -/
def eligibleFile (filename : String) : Bool :=
  (strEndsWith filename ".ts" || strEndsWith filename ".tsx") &&
    !(exclude_patterns.any fun q => strContains filename q)

/-- Eligible files of one directory listing, paired with their relative paths:
the inner for-loop of scan_files over the filenames of one os.walk step, where
p is the path of the directory being listed. -/
def fileEntries (p : String) : FSList → List (String × Option Nat)
  | FSList.nil => []
  | FSList.cons (FSEntry.file n c) rest =>
      if eligibleFile n then (p ++ "/" ++ n, c) :: fileEntries p rest
      else fileEntries p rest
  | FSList.cons (FSEntry.dir _ _) rest => fileEntries p rest

mutual
/-- Recursive descent of os.walk as used by scan_files (count-lines.py lines
154-172).  walkAux p e is the contribution of the child entry e of the
directory at path p: nothing for a file (files are picked up by fileEntries at
their own directory), and for a subdirectory either nothing when its name is
excluded (the pruning of dirs before descending) or its own files followed by
the recursive walk of its children. -/
def walkAux (p : String) : FSEntry → List (String × Option Nat)
  | FSEntry.file _ _ => []
  | FSEntry.dir n cs =>
      if n ∈ excluded_dirs then []
      else fileEntries (p ++ "/" ++ n) cs ++ walkChildren (p ++ "/" ++ n) cs
/-- Contributions of the children of the directory at path p, concatenated in
listing order; this matches os.walk's top-down order, in which each directory
yields its own files first and is then followed by its subdirectories in
listing order. -/
def walkChildren (p : String) : FSList → List (String × Option Nat)
  | FSList.nil => []
  | FSList.cons e rest => walkAux p e ++ walkChildren p rest
end

/-- Walk of the tree rooted at the directory whose path relative to the
project root is p and whose listing is cs: the eligible files of the root
directory itself, then the recursive walk of its subdirectories. -/
def walkTree (p : String) (cs : FSList) : List (String × Option Nat) :=
  fileEntries p cs ++ walkChildren p cs

/-- Insertion into a list sorted by line count descending, placed after every
element with an equal or larger count, so insertion is stable. -/
def insertDesc (f : FileInfo) : List FileInfo → List FileInfo
  | [] => [f]
  | g :: rest => if g.lines < f.lines then f :: g :: rest else g :: insertDesc f rest

/-- Stable sort by line count descending, modelling the Python call
files.sort(key=lambda f: f.lines, reverse=True) at count-lines.py line 174;
a stable sort with this key admits exactly one output sequence, so insertion
sort and Python's sort produce the same list. -/
def sortDesc (l : List FileInfo) : List FileInfo :=
  l.foldl (fun acc f => insertDesc f acc) []

/-- Full scan (count-lines.py lines 148-175): walk the tree rooted at the
directory named srcName, build a FileInfo for every eligible file, and sort
the result by line count descending.  Relative paths are taken from the parent
of the root directory, so they all start with srcName. -/
def scan_files (srcName : String) (children : FSList) : List FileInfo :=
  sortDesc ((walkTree srcName children).map fun x =>
    { path := x.1, lines := count_lines x.2, category := categorize_file x.1 })

/-- Path of the directory reached from the directory at path p by descending
through the directory names ds in order. -/
def pathThrough (p : String) (ds : List String) : String :=
  ds.foldl (fun a d => a ++ "/" ++ d) p

/-- Shape of every record produced by the walk below a directory at path p:
it is an eligible file name n inside a chain of non-excluded directories ds
below p. -/
def walkShape (p : String) (x : String × Option Nat) : Prop :=
  ∃ ds n c, x = (pathThrough p ds ++ "/" ++ n, c) ∧ eligibleFile n = true ∧
    ∀ d ∈ ds, d ∉ excluded_dirs

/-- Per-category statistics, as in the CategoryStats dataclass
(count-lines.py lines 89-97). -/
structure CategoryStats where
  name : String
  total_files : Nat := 0
  critical : Nat := 0
  warning : Nat := 0
  good : Nat := 0
  total_lines : Nat := 0
  files : List FileInfo := []
deriving DecidableEq

/-- One folding step of build_stats (count-lines.py lines 184-196): add one
file to the statistics of its category. -/
def tally (cat : CategoryStats) (f : FileInfo) : CategoryStats :=
  let cat := { cat with
    total_files := cat.total_files + 1,
    total_lines := cat.total_lines + f.lines,
    files := cat.files ++ [f] }
  if f.lines > CRITICAL_THRESHOLD then { cat with critical := cat.critical + 1 }
  else if f.lines > WARNING_THRESHOLD then { cat with warning := cat.warning + 1 }
  else { cat with good := cat.good + 1 }

/-- Insertion of one file into the statistics map.  The Python dict keyed by
category name and preserving insertion order is modelled by an association
list: a new category is appended at the end, an existing one is updated in
place (count-lines.py lines 182-185). -/
def insertFile (stats : List CategoryStats) (f : FileInfo) : List CategoryStats :=
  match stats with
  | [] => [tally { name := f.category } f]
  | c :: rest =>
      if c.name = f.category then tally c f :: rest
      else c :: insertFile rest f

/-- Statistics aggregation (count-lines.py lines 178-198): fold the scanned
file list into per-category statistics. -/
def build_stats (files : List FileInfo) : List CategoryStats :=
  files.foldl insertFile []

/-- Concatenation of the member lists of all categories, in map order. -/
def membersJoin (stats : List CategoryStats) : List FileInfo :=
  stats.foldr (fun c acc => c.files ++ acc) []

/-- Sum of the total_files counters over all categories. -/
def sumTotalFiles (stats : List CategoryStats) : Nat :=
  stats.foldr (fun c acc => c.total_files + acc) 0

/-- Sum of the line counts of a list of records. -/
def sumLines (files : List FileInfo) : Nat :=
  files.foldr (fun f acc => f.lines + acc) 0

/-- Local invariant of one category's statistics: the file counter splits into
the three status counters, the line total is the sum over the members, and
every member belongs to the category by name. -/
def catInv (c : CategoryStats) : Prop :=
  c.total_files = c.critical + c.warning + c.good ∧
  c.total_lines = sumLines c.files ∧
  ∀ f ∈ c.files, f.category = c.name

/-- State of the configured root directory as seen by main
(count-lines.py lines 358-371): missing, present as a plain file, or present
as a directory with a listing. -/
inductive RootState where
  | missing
  | fileRoot (content : Option Nat)
  | dirRoot (children : FSList)

/-- Root handling of main (count-lines.py lines 362-371) as one operation
returning either the fatal configuration error or the scan result.  The check
in the source is Path.exists, which also accepts a root that is a plain file;
os.walk over a non-directory yields no entries, so that case scans to an empty
report.  Only a missing root reaches the error branch. -/
def scanRoot : RootState → Except String (List FileInfo × List CategoryStats)
  | RootState.missing => Except.error "Error: src/ directory not found"
  | RootState.fileRoot _ => Except.ok ([], [])
  | RootState.dirRoot cs =>
      Except.ok (scan_files "src" cs, build_stats (scan_files "src" cs))

/-- C1: the derived status is a pure function of the line count and the two
thresholds (warning = 400, critical = 500): it is critical exactly when
lineCount > 500, warning exactly when 400 < lineCount <= 500, good exactly
when lineCount <= 400; the three statuses cover every line count, the
characterizations exclude one another, and two records with the same line
count get the same status. -/
theorem status_partition (f : FileInfo) :
    WARNING_THRESHOLD = 400 ∧ CRITICAL_THRESHOLD = 500 ∧
    (f.status = "critical" ∨ f.status = "warning" ∨ f.status = "good") ∧
    (f.status = "critical" ↔ CRITICAL_THRESHOLD < f.lines) ∧
    (f.status = "warning" ↔ WARNING_THRESHOLD < f.lines ∧ f.lines ≤ CRITICAL_THRESHOLD) ∧
    (f.status = "good" ↔ f.lines ≤ WARNING_THRESHOLD) ∧
    (∀ g : FileInfo, g.lines = f.lines → g.status = f.status) := by
  have hpure : ∀ g : FileInfo, g.lines = f.lines → g.status = f.status := by
    intro g hg
    simp [FileInfo.status, hg]
  have hst : f.status =
      if 500 < f.lines then "critical" else if 400 < f.lines then "warning" else "good" := rfl
  have hC : CRITICAL_THRESHOLD = 500 := rfl
  have hW : WARNING_THRESHOLD = 400 := rfl
  rw [hC, hW, hst]
  by_cases h1 : 500 < f.lines
  · rw [if_pos h1]
    exact ⟨rfl, rfl, Or.inl rfl, iff_of_true rfl h1,
      iff_of_false (by decide) (by omega), iff_of_false (by decide) (by omega),
      fun g hg => (hpure g hg).trans (by rw [hst, if_pos h1])⟩
  · rw [if_neg h1]
    by_cases h2 : 400 < f.lines
    · rw [if_pos h2]
      exact ⟨rfl, rfl, Or.inr (Or.inl rfl), iff_of_false (by decide) h1,
        iff_of_true rfl ⟨h2, by omega⟩, iff_of_false (by decide) (by omega),
        fun g hg => (hpure g hg).trans (by rw [hst, if_neg h1, if_pos h2])⟩
    · rw [if_neg h2]
      exact ⟨rfl, rfl, Or.inr (Or.inr rfl), iff_of_false (by decide) h1,
        iff_of_false (by decide) (by omega), iff_of_true rfl (by omega),
        fun g hg => (hpure g hg).trans (by rw [hst, if_neg h1, if_neg h2])⟩

/-- Witness for C1: a 450-line record is a warning, and another record with the
same line count but different path and category has the same status. -/
theorem status_partition_witness :
    (FileInfo.mk "b.ts" 450 "Other").status = (FileInfo.mk "a.ts" 450 "Pages").status ∧
    (FileInfo.mk "a.ts" 450 "Pages").status = "warning" :=
  ⟨(status_partition (FileInfo.mk "a.ts" 450 "Pages")).2.2.2.2.2.2
      (FileInfo.mk "b.ts" 450 "Other") rfl,
    ((status_partition (FileInfo.mk "a.ts" 450 "Pages")).2.2.2.2.1).mpr (by decide)⟩

/-- Helper: when no rule of the list matches, firstLabel returns the fallback. -/
theorem firstLabel_of_no_match (l : List ((String → Bool) × String)) (s : String)
    (h : ∀ r ∈ l, r.1 s = false) : firstLabel l s = "Other" := by
  induction l with
  | nil => rfl
  | cons r rest ih =>
    have hr : r.1 s = false := h r (List.Mem.head _)
    show (if r.1 s then r.2 else firstLabel rest s) = "Other"
    rw [hr]
    simpa using ih fun q hq => h q (List.Mem.tail _ hq)

/-- C6: the classifier is total and deterministic: on every input path it
returns the label of the first rule, in the fixed source order, whose
predicate matches the separator-normalized path, and when no rule matches it
returns the fallback label "Other". -/
theorem categorize_first_match (p : String) :
    categorize_file p = firstLabel categoryRules (normalizeSep p) ∧
    ((∀ r ∈ categoryRules, r.1 (normalizeSep p) = false) → categorize_file p = "Other") :=
  ⟨rfl, fun h => firstLabel_of_no_match categoryRules (normalizeSep p) h⟩

/-- Witness for C6: a path matching no rule is labelled with the fallback. -/
theorem categorize_first_match_witness : categorize_file "plain.txt" = "Other" :=
  (categorize_first_match "plain.txt").2 (by decide)

/-- C9: the classifier has a filename-based rule: any path that contains the
substring useSmartSearchWorkflow and matches none of the five earlier rules is
labelled Renderer Components, even when the path contains no /components/
segment. -/
theorem useSmartSearchWorkflow_rule (p : String)
    (_h0 : strContains (normalizeSep p) "/components/" = false)
    (h1 : strContains (normalizeSep p) "/ipc/" = false)
    (h2 : strContains (normalizeSep p) "/store/" = false)
    (h3 : strContains (normalizeSep p) "/stores/" = false)
    (h4 : strContains (normalizeSep p) "/pages/" = false)
    (h5 : strContains (normalizeSep p) "/main/services/" = false)
    (h6 : strContains (normalizeSep p) "useSmartSearchWorkflow" = true) :
    categorize_file p = "Renderer Components" := by
  simp [categorize_file, h1, h2, h3, h4, h5, h6]

/-- Witness for C9: a hook file outside any components directory is labelled
Renderer Components through the filename rule. -/
theorem useSmartSearchWorkflow_rule_witness :
    categorize_file "src/renderer/hooks/useSmartSearchWorkflow.ts" = "Renderer Components" :=
  useSmartSearchWorkflow_rule "src/renderer/hooks/useSmartSearchWorkflow.ts"
    (by decide) (by decide) (by decide) (by decide) (by decide) (by decide) (by decide)

/-- Helper: every record of fileEntries is an eligible file of the listed
directory itself. -/
theorem fileEntries_shape (p : String) :
    (cs : FSList) → ∀ x ∈ fileEntries p cs,
      ∃ n c, x = (p ++ "/" ++ n, c) ∧ eligibleFile n = true
  | FSList.nil => by
      intro x hx
      cases hx
  | FSList.cons (FSEntry.file n c) rest => by
      intro x hx
      rw [fileEntries] at hx
      by_cases he : eligibleFile n
      · rw [if_pos he] at hx
        rcases List.mem_cons.mp hx with h1 | h2
        · exact ⟨n, c, h1, he⟩
        · exact fileEntries_shape p rest x h2
      · rw [if_neg he] at hx
        exact fileEntries_shape p rest x hx
  | FSList.cons (FSEntry.dir m cs) rest => by
      intro x hx
      rw [fileEntries] at hx
      exact fileEntries_shape p rest x hx

mutual
/-- Helper: every record contributed by a child entry is an eligible file name
inside a chain of non-excluded directories below the parent path. -/
theorem walkAux_shape (p : String) :
    (e : FSEntry) → ∀ x ∈ walkAux p e, walkShape p x
  | FSEntry.file n c => by
      intro x hx
      cases hx
  | FSEntry.dir n cs => by
      intro x hx
      rw [walkAux] at hx
      by_cases hn : n ∈ excluded_dirs
      · rw [if_pos hn] at hx
        cases hx
      · rw [if_neg hn] at hx
        rcases List.mem_append.mp hx with h1 | h2
        · obtain ⟨m, c, hxe, he⟩ := fileEntries_shape (p ++ "/" ++ n) cs x h1
          refine ⟨[n], m, c, hxe, he, ?_⟩
          intro d hd
          rcases List.mem_singleton.mp hd with rfl
          exact hn
        · obtain ⟨ds, m, c, hxe, he, hds⟩ := walkChildren_shape (p ++ "/" ++ n) cs x h2
          refine ⟨n :: ds, m, c, hxe, he, ?_⟩
          intro d hd
          rcases List.mem_cons.mp hd with rfl | hd'
          · exact hn
          · exact hds d hd'

/-- Helper: every record contributed by a listing of children is an eligible
file name inside a chain of non-excluded directories below the parent path. -/
theorem walkChildren_shape (p : String) :
    (cs : FSList) → ∀ x ∈ walkChildren p cs, walkShape p x
  | FSList.nil => by
      intro x hx
      cases hx
  | FSList.cons e rest => by
      intro x hx
      rw [walkChildren] at hx
      rcases List.mem_append.mp hx with h1 | h2
      · exact walkAux_shape p e x h1
      · exact walkChildren_shape p rest x h2
end

/-- Helper: every record of the full walk is an eligible file name inside a
chain of non-excluded directories below the root. -/
theorem walkTree_shape (p : String) (cs : FSList) :
    ∀ x ∈ walkTree p cs, walkShape p x := by
  intro x hx
  rcases List.mem_append.mp hx with h1 | h2
  · obtain ⟨n, c, hxe, he⟩ := fileEntries_shape p cs x h1
    refine ⟨[], n, c, hxe, he, ?_⟩
    intro d hd
    cases hd
  · exact walkChildren_shape p cs x h2

/-- Helper: insertion keeps the same records up to order. -/
theorem insertDesc_perm (f : FileInfo) (l : List FileInfo) :
    (insertDesc f l).Perm (f :: l) := by
  induction l with
  | nil => exact List.Perm.refl _
  | cons g rest ih =>
    show (if g.lines < f.lines then f :: g :: rest else g :: insertDesc f rest).Perm
      (f :: g :: rest)
    by_cases h : g.lines < f.lines
    · rw [if_pos h]
    · rw [if_neg h]
      exact (ih.cons g).trans (List.Perm.swap f g rest)

/-- Helper: the insertion-sort fold keeps the same records up to order. -/
theorem foldl_insertDesc_perm (l : List FileInfo) :
    ∀ acc : List FileInfo, (l.foldl (fun a f => insertDesc f a) acc).Perm (acc ++ l) := by
  induction l with
  | nil => intro acc; simp
  | cons f rest ih =>
    intro acc
    refine (ih (insertDesc f acc)).trans ?_
    refine ((insertDesc_perm f acc).append_right rest).trans ?_
    exact List.perm_middle.symm

/-- Helper: sorting keeps the same records up to order. -/
theorem sortDesc_perm (l : List FileInfo) : (sortDesc l).Perm l :=
  foldl_insertDesc_perm l []

/-- Helper: insertion preserves the sorted-descending invariant. -/
theorem insertDesc_pairwise (f : FileInfo) (l : List FileInfo)
    (h : l.Pairwise fun a b => b.lines ≤ a.lines) :
    (insertDesc f l).Pairwise fun a b => b.lines ≤ a.lines := by
  induction l with
  | nil => simp [insertDesc]
  | cons g rest ih =>
    rw [List.pairwise_cons] at h
    obtain ⟨hg, hrest⟩ := h
    show (if g.lines < f.lines then f :: g :: rest else g :: insertDesc f rest).Pairwise _
    by_cases hc : g.lines < f.lines
    · rw [if_pos hc]
      refine List.pairwise_cons.mpr ⟨?_, List.pairwise_cons.mpr ⟨hg, hrest⟩⟩
      intro b hb
      rcases List.mem_cons.mp hb with hbg | hbr
      · rw [hbg]
        exact Nat.le_of_lt hc
      · exact le_trans (hg b hbr) (Nat.le_of_lt hc)
    · rw [if_neg hc]
      refine List.pairwise_cons.mpr ⟨?_, ih hrest⟩
      intro b hb
      have hb' : b ∈ f :: rest := (insertDesc_perm f rest).mem_iff.mp hb
      rcases List.mem_cons.mp hb' with hbf | hbr
      · rw [hbf]
        exact Nat.le_of_not_lt hc
      · exact hg b hbr

/-- Helper: the insertion-sort fold yields a sorted-descending list. -/
theorem foldl_insertDesc_pairwise (l : List FileInfo) :
    ∀ acc : List FileInfo, (acc.Pairwise fun a b => b.lines ≤ a.lines) →
      (l.foldl (fun a f => insertDesc f a) acc).Pairwise fun a b => b.lines ≤ a.lines := by
  induction l with
  | nil => intro acc hacc; exact hacc
  | cons f rest ih => intro acc hacc; exact ih _ (insertDesc_pairwise f acc hacc)

/-- Helper: the sort output is sorted by line count descending. -/
theorem sortDesc_pairwise (l : List FileInfo) :
    (sortDesc l).Pairwise fun a b => b.lines ≤ a.lines :=
  foldl_insertDesc_pairwise l [] List.Pairwise.nil

/-- Helper: every record of the scan output is the walk record of an eligible
file, at its walk path, with its counted lines and its category. -/
theorem scan_files_mem (srcName : String) (children : FSList) (f : FileInfo)
    (hf : f ∈ scan_files srcName children) :
    ∃ ds n c, f = FileInfo.mk (pathThrough srcName ds ++ "/" ++ n) (count_lines c)
        (categorize_file (pathThrough srcName ds ++ "/" ++ n)) ∧
      eligibleFile n = true ∧ ∀ d ∈ ds, d ∉ excluded_dirs := by
  have hf' := (sortDesc_perm _).mem_iff.mp hf
  obtain ⟨x, hx, rfl⟩ := List.mem_map.mp hf'
  obtain ⟨ds, n, c, hxe, he, hds⟩ := walkTree_shape srcName children x hx
  exact ⟨ds, n, c, by rw [hxe], he, hds⟩

/-- C3: every record of the scan output is a file whose own name ends in .ts
or .tsx and contains none of the excluded substrings (the record's path being
the enclosing directory path joined with that name); conversely a file whose
name contains an excluded substring never appears, shown on a listing holding
foo.spec.ts, a.test.ts, b__tests__.ts and c__mocks__.tsx next to an eligible
Bar.tsx: only Bar.tsx is scanned. -/
theorem scan_eligibility (srcName : String) (children : FSList) :
    (∀ f ∈ scan_files srcName children, ∃ d n,
      f.path = d ++ "/" ++ n ∧
      (strEndsWith n ".ts" || strEndsWith n ".tsx") = true ∧
      (exclude_patterns.any fun q => strContains n q) = false) ∧
    scan_files "src" (fsList
      [ FSEntry.file "foo.spec.ts" (some 900), FSEntry.file "a.test.ts" (some 10),
        FSEntry.file "b__tests__.ts" (some 10), FSEntry.file "c__mocks__.tsx" (some 10),
        FSEntry.file "Bar.tsx" (some 150) ])
      = [ FileInfo.mk "src/Bar.tsx" 150 "Other" ] := by
  constructor
  · intro f hf
    obtain ⟨ds, n, c, hfe, he, hds⟩ := scan_files_mem srcName children f hf
    simp only [eligibleFile, Bool.and_eq_true, Bool.not_eq_true'] at he
    exact ⟨pathThrough srcName ds, n, by rw [hfe], he.1, he.2⟩
  · rfl

/-- Witness for C3: the one surviving record of the concrete scan decomposes
into a directory path and an eligible file name. -/
theorem scan_eligibility_witness :
    ∃ d n, (FileInfo.mk "src/Bar.tsx" 150 "Other").path = d ++ "/" ++ n ∧
      (strEndsWith n ".ts" || strEndsWith n ".tsx") = true ∧
      (exclude_patterns.any fun q => strContains n q) = false :=
  (scan_eligibility "src" (fsList [ FSEntry.file "Bar.tsx" (some 150) ])).1
    (FileInfo.mk "src/Bar.tsx" 150 "Other") (by decide)

/-- C4: a subdirectory whose name is in the fixed exclusion set contributes
nothing to the walk, whatever its contents (pruning happens before descent),
and consequently the path of every scanned record passes only through
directory names outside the exclusion set, at arbitrary depth. -/
theorem scan_pruning (srcName : String) (children : FSList) :
    (∀ p n cs, n ∈ excluded_dirs → walkAux p (FSEntry.dir n cs) = []) ∧
    (∀ f ∈ scan_files srcName children, ∃ ds n,
      f.path = pathThrough srcName ds ++ "/" ++ n ∧ ∀ d ∈ ds, d ∉ excluded_dirs) := by
  constructor
  · intro p n cs hn
    rw [walkAux, if_pos hn]
  · intro f hf
    obtain ⟨ds, n, c, hfe, he, hds⟩ := scan_files_mem srcName children f hf
    exact ⟨ds, n, by rw [hfe], hds⟩

/-- Witness for C4: a node_modules directory with a large file inside
contributes nothing, and a concrete scanned record decomposes into
non-excluded directory names. -/
theorem scan_pruning_witness :
    walkAux "src" (FSEntry.dir "node_modules" (fsList [ FSEntry.file "dep.ts" (some 1000) ])) = [] ∧
    ∃ ds n, (FileInfo.mk "src/app/a.ts" 7 "Other").path = pathThrough "src" ds ++ "/" ++ n ∧
      ∀ d ∈ ds, d ∉ excluded_dirs :=
  ⟨(scan_pruning "src" FSList.nil).1 "src" "node_modules"
      (fsList [ FSEntry.file "dep.ts" (some 1000) ]) (by decide),
    (scan_pruning "src" (fsList [ FSEntry.dir "app" (fsList [ FSEntry.file "a.ts" (some 7) ]) ])).2
      (FileInfo.mk "src/app/a.ts" 7 "Other") (by decide)⟩

/-- C7: the scan output is sorted by line count descending (every later record
has at most the line count of any earlier one), and it consists, up to that
reordering, of exactly the records determined by the walk of the tree, so a
second scan of an unchanged tree produces the same sequence. -/
theorem scan_files_sorted (srcName : String) (children : FSList) :
    ((scan_files srcName children).Pairwise fun a b => b.lines ≤ a.lines) ∧
    (scan_files srcName children).Perm ((walkTree srcName children).map fun x =>
      { path := x.1, lines := count_lines x.2, category := categorize_file x.1 }) :=
  ⟨sortDesc_pairwise _, sortDesc_perm _⟩

/-- Witness for C7: the sortedness statement applied to a concrete tree. -/
theorem scan_files_sorted_witness :
    (scan_files "src" (fsList
      [ FSEntry.file "a.ts" (some 10), FSEntry.file "b.ts" (some 20) ])).Pairwise
      fun a b => b.lines ≤ a.lines :=
  (scan_files_sorted "src" (fsList
    [ FSEntry.file "a.ts" (some 10), FSEntry.file "b.ts" (some 20) ])).1

/-- C8: a failed read is counted as zero lines rather than an error, and any
file the walk discovers with unreadable content still appears in the scan
output, with lineCount 0; the failure never aborts the scan, which is total. -/
theorem read_failure_zero :
    count_lines none = 0 ∧
    ∀ srcName children path, (path, (none : Option Nat)) ∈ walkTree srcName children →
      ∃ f, f ∈ scan_files srcName children ∧ f.path = path ∧ f.lines = 0 := by
  refine ⟨rfl, ?_⟩
  intro srcName children path hmem
  refine ⟨FileInfo.mk path 0 (categorize_file path), ?_, rfl, rfl⟩
  have hmap : FileInfo.mk path 0 (categorize_file path) ∈
      (walkTree srcName children).map (fun x =>
        { path := x.1, lines := count_lines x.2, category := categorize_file x.1 }) :=
    List.mem_map.mpr ⟨(path, none), hmem, rfl⟩
  exact (sortDesc_perm _).mem_iff.mpr hmap

/-- Witness for C8: a tree with one unreadable eligible file still yields a
record for it, with zero lines. -/
theorem read_failure_zero_witness :
    ∃ f, f ∈ scan_files "src" (fsList [ FSEntry.file "bad.ts" none ]) ∧
      f.path = "src/bad.ts" ∧ f.lines = 0 :=
  read_failure_zero.2 "src" (fsList [ FSEntry.file "bad.ts" none ]) "src/bad.ts" (by decide)

/-- C10: the test and mock substrings are checked only against a file's own
name, never against its directory path, and pruning applies only to the exact
names node_modules, dist and .git: an eligible file inside a directory named
__tests__ (or __mocks__) does appear in the scan output. -/
theorem tests_dir_not_pruned :
    scan_files "src" (fsList
        [ FSEntry.dir "__tests__" (fsList [ FSEntry.file "helper.ts" (some 10) ]) ])
      = [ FileInfo.mk "src/__tests__/helper.ts" 10 "Other" ] ∧
    scan_files "src" (fsList
        [ FSEntry.dir "__mocks__" (fsList [ FSEntry.file "impl.ts" (some 5) ]) ])
      = [ FileInfo.mk "src/__mocks__/impl.ts" 5 "Other" ] :=
  ⟨rfl, rfl⟩

/-- Helper: field values of one tally step. -/
theorem tally_fields (c : CategoryStats) (f : FileInfo) :
    (tally c f).name = c.name ∧
    (tally c f).files = c.files ++ [f] ∧
    (tally c f).total_files = c.total_files + 1 ∧
    (tally c f).total_lines = c.total_lines + f.lines ∧
    (tally c f).critical + (tally c f).warning + (tally c f).good
      = c.critical + c.warning + c.good + 1 := by
  by_cases h1 : f.lines > CRITICAL_THRESHOLD
  · refine ⟨?_, ?_, ?_, ?_, ?_⟩ <;> (simp [tally, h1]; try omega)
  · by_cases h2 : f.lines > WARNING_THRESHOLD
    · refine ⟨?_, ?_, ?_, ?_, ?_⟩ <;> (simp [tally, h1, h2]; try omega)
    · refine ⟨?_, ?_, ?_, ?_, ?_⟩ <;> (simp [tally, h1, h2]; try omega)

/-- Helper: the line sum of an appended list. -/
theorem sumLines_append (l1 l2 : List FileInfo) :
    sumLines (l1 ++ l2) = sumLines l1 + sumLines l2 := by
  induction l1 with
  | nil => simp [sumLines]
  | cons f rest ih =>
    show f.lines + sumLines (rest ++ l2) = f.lines + sumLines rest + sumLines l2
    rw [ih]
    omega

/-- Helper: one tally step preserves the local category invariant for a file
of the matching category. -/
theorem tally_catInv (c : CategoryStats) (f : FileInfo) (hname : f.category = c.name)
    (h : catInv c) : catInv (tally c f) := by
  obtain ⟨h1, h2, h3⟩ := h
  obtain ⟨hn, hf, htf, htl, hcnt⟩ := tally_fields c f
  refine ⟨by omega, ?_, ?_⟩
  · rw [htl, hf, sumLines_append, h2]
    show sumLines c.files + f.lines = sumLines c.files + (f.lines + 0)
    omega
  · rw [hf, hn]
    intro g hg
    rcases List.mem_append.mp hg with hg1 | hg2
    · exact h3 g hg1
    · rw [List.mem_singleton.mp hg2]
      exact hname

/-- Helper: inserting one file keeps the multiset of members, adding the file
at the end of its category. -/
theorem insertFile_members (s : List CategoryStats) (f : FileInfo) :
    (membersJoin (insertFile s f)).Perm (membersJoin s ++ [f]) := by
  induction s with
  | nil =>
    show ((tally { name := f.category } f).files ++ []).Perm ([] ++ [f])
    rw [(tally_fields _ f).2.1]
    exact List.Perm.refl _
  | cons c rest ih =>
    show (membersJoin (if c.name = f.category then tally c f :: rest
        else c :: insertFile rest f)).Perm ((c.files ++ membersJoin rest) ++ [f])
    by_cases h : c.name = f.category
    · rw [if_pos h]
      show ((tally c f).files ++ membersJoin rest).Perm ((c.files ++ membersJoin rest) ++ [f])
      rw [(tally_fields c f).2.1, List.append_assoc, List.append_assoc]
      exact List.Perm.append_left c.files (List.perm_append_comm)
    · rw [if_neg h]
      show (c.files ++ membersJoin (insertFile rest f)).Perm
        ((c.files ++ membersJoin rest) ++ [f])
      rw [List.append_assoc]
      exact List.Perm.append_left c.files ih

/-- Helper: inserting one file raises the total file counter by one. -/
theorem insertFile_total (s : List CategoryStats) (f : FileInfo) :
    sumTotalFiles (insertFile s f) = sumTotalFiles s + 1 := by
  induction s with
  | nil =>
    show (tally { name := f.category } f).total_files + 0 = 0 + 1
    rw [(tally_fields _ f).2.2.1]
  | cons c rest ih =>
    show sumTotalFiles (if c.name = f.category then tally c f :: rest
        else c :: insertFile rest f) = c.total_files + sumTotalFiles rest + 1
    by_cases h : c.name = f.category
    · rw [if_pos h]
      show (tally c f).total_files + sumTotalFiles rest = c.total_files + sumTotalFiles rest + 1
      rw [(tally_fields c f).2.2.1]
      omega
    · rw [if_neg h]
      show c.total_files + sumTotalFiles (insertFile rest f)
        = c.total_files + sumTotalFiles rest + 1
      rw [ih]
      omega

/-- Helper: inserting one file either keeps the category names or appends the
new file's category at the end. -/
theorem insertFile_names (s : List CategoryStats) (f : FileInfo) :
    (insertFile s f).map CategoryStats.name = s.map CategoryStats.name ∨
    (insertFile s f).map CategoryStats.name = s.map CategoryStats.name ++ [f.category] := by
  induction s with
  | nil =>
    right
    show [(tally { name := f.category } f).name] = [] ++ [f.category]
    rw [(tally_fields _ f).1]
    rfl
  | cons c rest ih =>
    by_cases h : c.name = f.category
    · left
      show (if c.name = f.category then tally c f :: rest
          else c :: insertFile rest f).map CategoryStats.name = c.name :: rest.map CategoryStats.name
      rw [if_pos h]
      show (tally c f).name :: rest.map CategoryStats.name = c.name :: rest.map CategoryStats.name
      rw [(tally_fields c f).1]
    · have hstep : (insertFile (c :: rest) f).map CategoryStats.name
          = c.name :: (insertFile rest f).map CategoryStats.name := by
        show (if c.name = f.category then tally c f :: rest
            else c :: insertFile rest f).map CategoryStats.name
          = c.name :: (insertFile rest f).map CategoryStats.name
        rw [if_neg h]
        rfl
      rcases ih with h1 | h1
      · left
        rw [hstep, h1]
        rfl
      · right
        rw [hstep, h1]
        rfl

/-- Helper: inserting one file preserves distinctness of category names. -/
theorem insertFile_nodup (s : List CategoryStats) (f : FileInfo)
    (h : (s.map CategoryStats.name).Nodup) :
    ((insertFile s f).map CategoryStats.name).Nodup := by
  induction s with
  | nil =>
    show ([(tally { name := f.category } f).name]).Nodup
    exact List.nodup_singleton _
  | cons c rest ih =>
    rw [List.map_cons, List.nodup_cons] at h
    obtain ⟨hmem, hrest⟩ := h
    by_cases hc : c.name = f.category
    · show (if c.name = f.category then tally c f :: rest
          else c :: insertFile rest f).map CategoryStats.name |>.Nodup
      rw [if_pos hc, List.map_cons, (tally_fields c f).1]
      exact List.nodup_cons.mpr ⟨hmem, hrest⟩
    · show (if c.name = f.category then tally c f :: rest
          else c :: insertFile rest f).map CategoryStats.name |>.Nodup
      rw [if_neg hc, List.map_cons]
      refine List.nodup_cons.mpr ⟨?_, ih hrest⟩
      rcases insertFile_names rest f with h1 | h1
      · rw [h1]
        exact hmem
      · rw [h1, List.mem_append]
        intro hcon
        rcases hcon with hcon | hcon
        · exact hmem hcon
        · exact hc (List.mem_singleton.mp hcon)

/-- Helper: inserting one file preserves the local invariant of every
category. -/
theorem insertFile_catInv (s : List CategoryStats) (f : FileInfo)
    (h : ∀ c ∈ s, catInv c) : ∀ c ∈ insertFile s f, catInv c := by
  induction s with
  | nil =>
    intro c hc
    rw [List.mem_singleton.mp hc]
    exact tally_catInv _ f rfl ⟨rfl, rfl, by intro g hg; cases hg⟩
  | cons c0 rest ih =>
    intro c hc
    by_cases hm : c0.name = f.category
    · rw [show insertFile (c0 :: rest) f = tally c0 f :: rest from by
        show (if c0.name = f.category then tally c0 f :: rest
          else c0 :: insertFile rest f) = tally c0 f :: rest
        rw [if_pos hm]] at hc
      rcases List.mem_cons.mp hc with h1 | h1
      · rw [h1]
        exact tally_catInv c0 f hm.symm (h c0 (List.Mem.head _))
      · exact h c (List.Mem.tail _ h1)
    · rw [show insertFile (c0 :: rest) f = c0 :: insertFile rest f from by
        show (if c0.name = f.category then tally c0 f :: rest
          else c0 :: insertFile rest f) = c0 :: insertFile rest f
        rw [if_neg hm]] at hc
      rcases List.mem_cons.mp hc with h1 | h1
      · rw [h1]
        exact h c0 (List.Mem.head _)
      · exact ih (fun d hd => h d (List.Mem.tail _ hd)) c h1

/-- Helper: folding a file list into statistics appends exactly those files to
the members. -/
theorem foldl_insertFile_members (files : List FileInfo) :
    ∀ s : List CategoryStats,
      (membersJoin (files.foldl insertFile s)).Perm (membersJoin s ++ files) := by
  induction files with
  | nil => intro s; simp
  | cons f rest ih =>
    intro s
    refine (ih (insertFile s f)).trans ?_
    refine ((insertFile_members s f).append_right rest).trans ?_
    rw [List.append_assoc]
    exact List.Perm.refl _

/-- Helper: folding a file list raises the total file counter by its length. -/
theorem foldl_insertFile_total (files : List FileInfo) :
    ∀ s : List CategoryStats,
      sumTotalFiles (files.foldl insertFile s) = sumTotalFiles s + files.length := by
  induction files with
  | nil => intro s; rfl
  | cons f rest ih =>
    intro s
    rw [show (f :: rest).foldl insertFile s = rest.foldl insertFile (insertFile s f) from rfl,
      ih (insertFile s f), insertFile_total s f]
    simp
    omega

/-- Helper: folding a file list preserves distinctness of category names. -/
theorem foldl_insertFile_nodup (files : List FileInfo) :
    ∀ s : List CategoryStats, (s.map CategoryStats.name).Nodup →
      ((files.foldl insertFile s).map CategoryStats.name).Nodup := by
  induction files with
  | nil => intro s hs; exact hs
  | cons f rest ih => intro s hs; exact ih (insertFile s f) (insertFile_nodup s f hs)

/-- Helper: folding a file list preserves the local invariant of every
category. -/
theorem foldl_insertFile_catInv (files : List FileInfo) :
    ∀ s : List CategoryStats, (∀ c ∈ s, catInv c) →
      ∀ c ∈ files.foldl insertFile s, catInv c := by
  induction files with
  | nil => intro s hs; exact hs
  | cons f rest ih => intro s hs; exact ih (insertFile s f) (insertFile_catInv s f hs)

/-- C5: statistics built from a scanned file list are consistent: the members
of all categories are exactly the input files (same multiset, so no omissions
and no duplicates beyond the input), category names are pairwise distinct and
every member carries its category's name (so each file lands in exactly one
category), the total_files counters sum to the number of input files, and
inside each category total_files splits into critical + warning + good while
total_lines is the sum of the members' line counts. -/
theorem build_stats_invariants (files : List FileInfo) :
    (membersJoin (build_stats files)).Perm files ∧
    ((build_stats files).map CategoryStats.name).Nodup ∧
    sumTotalFiles (build_stats files) = files.length ∧
    ∀ c ∈ build_stats files,
      c.total_files = c.critical + c.warning + c.good ∧
      c.total_lines = sumLines c.files ∧
      ∀ f ∈ c.files, f.category = c.name := by
  refine ⟨?_, ?_, ?_, ?_⟩
  · simpa using foldl_insertFile_members files []
  · exact foldl_insertFile_nodup files [] (List.nodup_nil)
  · have h := foldl_insertFile_total files []
    rw [show sumTotalFiles ([] : List CategoryStats) = 0 from rfl] at h
    rw [show build_stats files = files.foldl insertFile [] from rfl, h]
    omega
  · exact foldl_insertFile_catInv files [] (by intro c hc; cases hc)

/-- Witness for C5: for a one-file input the statistics hold one category,
whose single member carries the category name; its counters are consistent. -/
theorem build_stats_invariants_witness :
    (FileInfo.mk "src/a.ts" 10 "X").category
      = (CategoryStats.mk "X" 1 0 0 1 10 [ FileInfo.mk "src/a.ts" 10 "X" ]).name ∧
    sumTotalFiles (build_stats [ FileInfo.mk "src/a.ts" 10 "X" ]) = 1 :=
  ⟨((build_stats_invariants [ FileInfo.mk "src/a.ts" 10 "X" ]).2.2.2
      (CategoryStats.mk "X" 1 0 0 1 10 [ FileInfo.mk "src/a.ts" 10 "X" ]) (by decide)).2.2
      (FileInfo.mk "src/a.ts" 10 "X") (by decide),
    (build_stats_invariants [ FileInfo.mk "src/a.ts" 10 "X" ]).2.2.1⟩

/-- C2 (amended): the scan fails with the configuration error, producing no
files or categories output, exactly when the root directory is missing; when
the root exists but is a plain file rather than a directory, the existence
check of the source accepts it and the scan silently returns the empty
result instead of an error. -/
theorem scanRoot_spec :
    scanRoot RootState.missing = Except.error "Error: src/ directory not found" ∧
    ∀ c, scanRoot (RootState.fileRoot c) = Except.ok ([], []) :=
  ⟨rfl, fun _ => rfl⟩

/-- Witness for C2 (amended): the file-root case evaluated at a concrete
content. -/
theorem scanRoot_spec_witness : scanRoot (RootState.fileRoot (some 3)) = Except.ok ([], []) :=
  scanRoot_spec.2 (some 3)

/-- Counterexample to C2 as stated: a root that exists but is not a directory
is not rejected with a configuration error; the scan returns the silent empty
result, contradicting the claim that both failure modes error out. -/
theorem scanRoot_file_not_error :
    scanRoot (RootState.fileRoot none) = Except.ok ([], []) ∧
    ∀ e, scanRoot (RootState.fileRoot none) ≠ Except.error e :=
  ⟨rfl, fun e h => by cases h⟩
